import Mathlib

/-!
A shallow embedding of the DNS message codec and forwarding resolver of
src/main.rs (codecrafters-dns-server-rust), with theorems checking the
natural-language specification against it.

Modelling conventions:
* Bytes are `Nat`s; Rust `u8`/`u16`/`u32` arithmetic carries explicit
  `% 256`, `% 65536`, ... where the Rust type would wrap.
* The `Cursor`/`read_exact` pairs of the source, whose errors the source
  discards (`let _ = reader.read_exact(..)`), follow `Cursor<&[u8]>`:
  `read_exact` delegates to the slice implementation, which checks the
  remaining length before copying, so a read that fits copies the bytes and
  advances the position, while a failed read copies nothing and leaves the
  position in place (`readExact`). `Name::parse` reads its length and pointer
  bytes into fresh zero-initialised one-byte buffers, so a failed read there
  sees byte 0 with the position unchanged; `Question::parse` and
  `Answer::parse` allocate their scratch buffers (`buf`, `buf4`) once and
  reuse them across reads, so a failed read there leaves the previous read's
  bytes in the scratch. A label read of `Name::parse` that would run past the
  end of the buffer is modelled byte-wise (zero-filled, position clamped to
  the buffer end).
* Panics (`unwrap`, `expect`, out-of-range indexing and slicing) are
  modelled as `Option.none`.
* `String` values that hold label bytes are modelled as raw byte lists
  (`String::from_utf8` as the identity on the bytes).
* `Name::parse` recurses through compression pointers with no bound in the
  source; the model adds a fuel parameter, decremented once per loop
  iteration and per pointer jump, so non-termination of the source shows up
  as `none` at every fuel.
-/

/-- Byte the cursor reads at position `i`: the buffer's byte in bounds, 0 past
the end. -/
def byteAt (buf : List Nat) (i : Nat) : Nat := buf.getD i 0

/-- Cursor position after reading `n` bytes from `pos`: advances while in
bounds, sticks at the end of the buffer, stays put when already past it. -/
def nextN (buf : List Nat) (pos n : Nat) : Nat := max pos (min (pos + n) buf.length)

/-- Big-endian bytes of a u16 (`u16::to_be_bytes`). -/
def u16be (n : Nat) : List Nat := [n / 256 % 256, n % 256]

/-- Big-endian bytes of a u32 (`u32::to_be_bytes`). -/
def u32be (n : Nat) : List Nat :=
  [n / 16777216 % 256, n / 65536 % 256, n / 256 % 256, n % 256]

/-- Rust's `Vec::join(".")` on byte strings: `List.intercalate [46]`
(46 is the dot byte). -/
def joinDots (ls : List (List Nat)) : List Nat := List.intercalate [46] ls

/-- Wire bytes of a label sequence: each label length-prefixed
(without the trailing zero byte). -/
def labelsBytes (ls : List (List Nat)) : List Nat := (ls.map fun l => l.length :: l).flatten

/-- Rust `enum MessageType { Query = 0, Reply }`. -/
inductive MessageType
  | Query
  | Reply
deriving DecidableEq, Repr

/-- The wire code of a message type (`as u8`). -/
def MessageType.toNat : MessageType → Nat
  | .Query => 0
  | .Reply => 1

/-- Rust `TryFrom<u8> for MessageType`. -/
def MessageType.ofCode : Nat → Option MessageType
  | 0 => some .Query
  | 1 => some .Reply
  | _ => none

/-- Rust `enum ResourceType` with wire codes A=1 .. TXT=16. -/
inductive ResourceType
  | A
  | NS
  | MD
  | MF
  | CNAME
  | SOA
  | MB
  | MG
  | MR
  | NULL
  | WKS
  | PTR
  | HINFO
  | MINFO
  | MX
  | TXT
deriving DecidableEq, Repr

/-- The wire code of a resource type (`as u16`). -/
def ResourceType.toNat : ResourceType → Nat
  | .A => 1
  | .NS => 2
  | .MD => 3
  | .MF => 4
  | .CNAME => 5
  | .SOA => 6
  | .MB => 7
  | .MG => 8
  | .MR => 9
  | .NULL => 10
  | .WKS => 11
  | .PTR => 12
  | .HINFO => 13
  | .MINFO => 14
  | .MX => 15
  | .TXT => 16

/-- Rust `TryFrom<u16> for ResourceType`. -/
def ResourceType.ofCode : Nat → Option ResourceType
  | 1 => some .A
  | 2 => some .NS
  | 3 => some .MD
  | 4 => some .MF
  | 5 => some .CNAME
  | 6 => some .SOA
  | 7 => some .MB
  | 8 => some .MG
  | 9 => some .MR
  | 10 => some .NULL
  | 11 => some .WKS
  | 12 => some .PTR
  | 13 => some .HINFO
  | 14 => some .MINFO
  | 15 => some .MX
  | 16 => some .TXT
  | _ => none

/-- Rust `enum ResourceClass` with wire codes IN=1 .. HS=4. -/
inductive ResourceClass
  | IN
  | CS
  | CH
  | HS
deriving DecidableEq, Repr

/-- The wire code of a resource class (`as u16`). -/
def ResourceClass.toNat : ResourceClass → Nat
  | .IN => 1
  | .CS => 2
  | .CH => 3
  | .HS => 4

/-- Rust `TryFrom<u16> for ResourceClass`. -/
def ResourceClass.ofCode : Nat → Option ResourceClass
  | 1 => some .IN
  | 2 => some .CS
  | 3 => some .CH
  | 4 => some .HS
  | _ => none

/-- Rust `struct Name { name: String }`: the domain name as the joined
dotted byte string. -/
structure Name where
  name : List Nat
deriving DecidableEq, Repr

/-- The loop of `Name::parse`, accumulating the `names` vector: returns the
collected name parts and the final cursor position. `fuel` decreases once per
loop iteration and per pointer jump; the source has no such bound and loops
forever on a pointer cycle, which the model reports as `none` at every fuel. -/
def nameParseAux (buf : List Nat) : Nat → Nat → List (List Nat) → Option (List (List Nat) × Nat)
  | 0, _, _ => none
  | fuel + 1, pos, acc =>
    if buf.length ≤ pos then
      -- the length read fails and the byte stays 0: the loop breaks
      some (acc, pos)
    else
      let len := byteAt buf pos
      if len / 64 = 3 then
        -- compressed: read the pointer's bottom byte, resolve at the target
        -- (the sub-parse's final position is discarded by `Name::resolve`),
        -- push the resolved name as one element, stop
        let bottom := byteAt buf (pos + 1)
        let pos2 := nextN buf (pos + 1) 1
        let ptr := len % 64 * 256 + bottom
        match nameParseAux buf fuel ptr [] with
        | none => none
        | some (sub, _) => some (acc ++ [joinDots sub], pos2)
      else if len = 0 then
        some (acc, pos + 1)
      else
        let label := (List.range len).map fun i => byteAt buf (pos + 1 + i)
        nameParseAux buf fuel (nextN buf (pos + 1) len) (acc ++ [label])

/-- `Name::parse`: the collected parts joined with dots, and the cursor
position after the name. -/
def nameParse (buf : List Nat) (fuel pos : Nat) : Option (Name × Nat) :=
  (nameParseAux buf fuel pos []).map fun r => (⟨joinDots r.1⟩, r.2)

/-- `Name::to_bytes`: length-prefixed labels (the name split on dots) and a
zero terminator; `none` models the panic when a label exceeds 255 bytes. -/
def nameToBytes (nm : Name) : Option (List Nat) :=
  let labels := nm.name.splitOn 46
  if labels.all fun l => l.length ≤ 255 then some (labelsBytes labels ++ [0])
  else none

/-- Rust `struct Question`; the source's `class` field is a Lean keyword and
is called `rclass` here. -/
structure Question where
  name : Name
  rtype : ResourceType
  rclass : ResourceClass
deriving DecidableEq, Repr

/-- One `read_exact` of `n` bytes into an `n`-byte scratch buffer: when `n`
bytes remain the scratch holds the bytes read and the position advances past
them; a failed read (fewer than `n` bytes remaining) copies nothing, leaving
the scratch contents and the position unchanged (`Cursor<&[u8]>::read_exact`
delegates to the slice implementation, which checks the remaining length
before copying anything). Returns the scratch contents and the new
position. -/
def readExact (buf : List Nat) (pos n : Nat) (scratch : List Nat) : List Nat × Nat :=
  if pos + n ≤ buf.length then ((List.range n).map fun i => byteAt buf (pos + i), pos + n)
  else (scratch, pos)

/-- `u16::from_be_bytes` on a 2-byte scratch buffer. -/
def beU16 (s : List Nat) : Nat := s.getD 0 0 * 256 + s.getD 1 0

/-- `u32::from_be_bytes` on a 4-byte scratch buffer. -/
def beU32 (s : List Nat) : Nat :=
  s.getD 0 0 * 16777216 + s.getD 1 0 * 65536 + s.getD 2 0 * 256 + s.getD 3 0

/-- `Question::parse`: name, then two big-endian u16 fields, both read through
the single 2-byte scratch `buf`, which is zero-initialised once and reused: a
failed class read leaves the type bytes in the scratch. `none` models the
`unwrap` panics on an unrecognised type or class code. -/
def questionParse (buf : List Nat) (fuel pos : Nat) : Option (Question × Nat) :=
  (nameParse buf fuel pos).bind fun r1 =>
    let s1 := readExact buf r1.2 2 [0, 0]
    (ResourceType.ofCode (beU16 s1.1)).bind fun rt =>
      let s2 := readExact buf s1.2 2 s1.1
      (ResourceClass.ofCode (beU16 s2.1)).map fun rc => (⟨r1.1, rt, rc⟩, s2.2)

/-- `Question::to_bytes`. -/
def questionToBytes (q : Question) : Option (List Nat) :=
  (nameToBytes q.name).map fun nb => nb ++ u16be q.rtype.toNat ++ u16be q.rclass.toNat

/-- Rust `struct Answer`; the source's `class` field is called `rclass` here. -/
structure Answer where
  name : Name
  rtype : ResourceType
  rclass : ResourceClass
  ttl : Nat
  rdlength : Nat
  rdata : List Nat
deriving DecidableEq, Repr

/-- `Answer::parse`: name, type, class, 4-byte TTL, 2-byte rdlength, then
always exactly 4 bytes of rdata (the source reads a fixed `buf4` and never
consults `rdlength`). The 2-byte scratch `buf` (type, class, rdlength) and the
4-byte scratch `buf4` (TTL, rdata) are each zero-initialised once and reused,
so a failed read leaves the previous read's bytes in the scratch: in
particular a failed rdata read hands back the TTL bytes as rdata (the
`u8::from_be` copies into the `rdata` vector are the identity). `none` models
the panics on unrecognised type or class codes. -/
def answerParse (buf : List Nat) (fuel pos : Nat) : Option (Answer × Nat) :=
  (nameParse buf fuel pos).bind fun r1 =>
    let s1 := readExact buf r1.2 2 [0, 0]
    (ResourceType.ofCode (beU16 s1.1)).bind fun rt =>
      let s2 := readExact buf s1.2 2 s1.1
      (ResourceClass.ofCode (beU16 s2.1)).map fun rc =>
        let s3 := readExact buf s2.2 4 [0, 0, 0, 0]
        let ttl := beU32 s3.1
        let s4 := readExact buf s3.2 2 s2.1
        let rdlength := beU16 s4.1
        let s5 := readExact buf s4.2 4 s3.1
        (⟨r1.1, rt, rc, ttl, rdlength, s5.1⟩, s5.2)

/-- `Answer::to_bytes`: the stored `rdlength` field is written as is (not
recomputed from `rdata`), then the stored rdata bytes. -/
def answerToBytes (a : Answer) : Option (List Nat) :=
  (nameToBytes a.name).map fun nb =>
    nb ++ u16be a.rtype.toNat ++ u16be a.rclass.toNat ++ u32be a.ttl ++
      u16be a.rdlength ++ a.rdata

/-- Rust `struct Flags`; every numeric subfield is a `u8` in the source. -/
structure Flags where
  qr : MessageType
  opcode : Nat
  aa : Nat
  tc : Nat
  rd : Nat
  ra : Nat
  z : Nat
  rcode : Nat
deriving DecidableEq, Repr

/-- `Flags::to_bytes`: the two bit-packed flag bytes. Each `u8` shift wraps
modulo 256 and the parts are ORed, exactly as in the source; out-of-range
subfields silently bleed into neighbouring bits, there is no error path. -/
def flagsToBytes (f : Flags) : List Nat :=
  [f.qr.toNat * 128 % 256 ||| f.opcode * 8 % 256 ||| f.aa * 4 % 256 |||
     f.tc * 2 % 256 ||| f.rd % 256,
   f.ra * 128 % 256 ||| f.z * 16 % 256 ||| f.rcode % 256]

/-- Rust `struct Header`. -/
structure Header where
  id : Nat
  flags : Flags
  qdcount : Nat
  ancount : Nat
  nscount : Nat
  arcount : Nat
deriving DecidableEq, Repr

/-- `Header::parse` on the first 12 bytes: the source's shifts and masks
verbatim (note `z` is read as `buffer[3] >> 4 & 0xf`, which includes the `ra`
bit). -/
def headerParse (buf : List Nat) : Option Header :=
  let b2 := byteAt buf 2
  let b3 := byteAt buf 3
  (MessageType.ofCode (b2 / 128)).map fun qr =>
    { id := byteAt buf 0 * 256 + byteAt buf 1
      flags := { qr := qr, opcode := b2 / 8 % 16, aa := b2 / 4 % 2, tc := b2 / 2 % 2,
                 rd := b2 % 2, ra := b3 / 128, z := b3 / 16 % 16, rcode := b3 % 16 }
      qdcount := byteAt buf 4 * 256 + byteAt buf 5
      ancount := byteAt buf 6 * 256 + byteAt buf 7
      nscount := byteAt buf 8 * 256 + byteAt buf 9
      arcount := byteAt buf 10 * 256 + byteAt buf 11 }

/-- `Header::to_bytes`: id, flag bytes, and the four counts, big-endian. -/
def headerToBytes (h : Header) : List Nat :=
  u16be h.id ++ flagsToBytes h.flags ++ u16be h.qdcount ++ u16be h.ancount ++
    u16be h.nscount ++ u16be h.arcount

/-- Rust `struct Message`. -/
structure Message where
  header : Header
  questions : List Question
  answers : List Answer
  name_servers : List Answer
  additional : List Answer
deriving DecidableEq, Repr

/-- Parse `count` records with `p`, threading the cursor (the `for _ in 0..`
loops of `Message::parse`). -/
def parseList {α : Type} (p : Nat → Option (α × Nat)) : Nat → Nat → Option (List α × Nat)
  | 0, pos => some ([], pos)
  | n + 1, pos =>
    (p pos).bind fun r =>
      (parseList p n r.2).map fun rs => (r.1 :: rs.1, rs.2)

/-- `Message::parse`: header from the first 12 bytes (`none` models the panic
of `&buffer[..12]` on a shorter buffer), then `qdcount` questions, `ancount`
answers, `nscount` name servers and `arcount` additional records. -/
def messageParse (buf : List Nat) (fuel : Nat) : Option Message :=
  if buf.length < 12 then none
  else
    (headerParse buf).bind fun h =>
      (parseList (questionParse buf fuel) h.qdcount 12).bind fun qr =>
        (parseList (answerParse buf fuel) h.ancount qr.2).bind fun ar =>
          (parseList (answerParse buf fuel) h.nscount ar.2).bind fun nr =>
            (parseList (answerParse buf fuel) h.arcount nr.2).map fun dr =>
              { header := h, questions := qr.1, answers := ar.1,
                name_servers := nr.1, additional := dr.1 }

/-- Serialise the given records in order, `none` as soon as one panics. -/
def toBytesList {α : Type} (f : α → Option (List Nat)) : List α → Option (List Nat)
  | [] => some []
  | x :: xs => (f x).bind fun b => (toBytesList f xs).map fun bs => b ++ bs

/-- `Message::to_bytes`: header, questions and answers only — the
`name_servers` and `additional` sections are never serialised, and the header
counts are written as stored, not derived from the section lengths. -/
def msgToBytes (m : Message) : Option (List Nat) :=
  (toBytesList questionToBytes m.questions).bind fun qb =>
    (toBytesList answerToBytes m.answers).map fun ab =>
      headerToBytes m.header ++ qb ++ ab

/-- `ipv4_to_bytes` applied to an address given by its four octets. -/
def ipv4ToBytes (a b c d : Nat) : List Nat := [a, b, c, d]

/-- The answer `handle_connection` synthesises per question when no upstream
resolver is configured: the question's name, type A, class IN, TTL 60, rdata
holding 8.8.8.8. -/
def synthAnswer (q : Question) : Answer :=
  { name := q.name, rtype := .A, rclass := .IN, ttl := 60, rdlength := 4,
    rdata := ipv4ToBytes 8 8 8 8 }

/-- The `None` (stub-mode) arm of `handle_connection`: append one synthesised
answer per question; the header — in particular `ancount` — is left
untouched. -/
def resolveStub (m : Message) : Message :=
  { m with answers := m.answers ++ m.questions.map synthAnswer }

/-- `orig_msg.header.flags.qr = MessageType::Reply` before serialising. -/
def setReply (m : Message) : Message :=
  { m with header := { m.header with flags := { m.header.flags with qr := .Reply } } }

/-- `forward_query`: serialise the outbound message, exchange it over the
network (abstracted as `net`; `none` = no reply received) and parse the raw
reply bytes; `none` also covers the panics of `to_bytes` and
`Message::parse`. -/
def forwardQuery (net : List Nat → Option (List Nat)) (fuel : Nat) (msg : Message) :
    Option Message :=
  (msgToBytes msg).bind fun out => (net out).bind fun resp => messageParse resp fuel

/-- `forwarded_msg`: a clone of the request with `qdcount` forced to 1 (its
question list is replaced at each loop iteration). -/
def mkFwdBase (m : Message) : Message :=
  { m with header := { m.header with qdcount := 1 } }

/-- The single-question message forwarded for question `q`. -/
def mkFwd (m : Message) (q : Question) : Message :=
  { mkFwdBase m with questions := [q] }

/-- The multi-question loop of `handle_connection`: forward each question on
its own; a reply whose `ancount` is positive contributes its first answer
(`response.answers[0]`; `none` when that indexing would panic) and bumps the
accumulated `ancount`. `none` models the `.unwrap()` on a failed forward. -/
def splitLoop (net : List Nat → Option (List Nat)) (fuel : Nat) (base : Message) :
    List Question → Message → Option Message
  | [], acc => some acc
  | q :: qs, acc =>
    match forwardQuery net fuel { base with questions := [q] } with
    | none => none
    | some resp =>
      if 0 < resp.header.ancount then
        match resp.answers with
        | [] => none
        | a :: _ =>
          splitLoop net fuel base qs
            { acc with
              header := { acc.header with ancount := acc.header.ancount + 1 },
              answers := acc.answers ++ [a] }
      else splitLoop net fuel base qs acc

/-- The `Some(resolver)` arm of `handle_connection`: pass a single-question
request through `forward_query` unchanged, split anything else question by
question. -/
def resolveWithUpstream (net : List Nat → Option (List Nat)) (fuel : Nat) (m : Message) :
    Option Message :=
  if m.header.qdcount = 1 then forwardQuery net fuel m
  else splitLoop net fuel (mkFwdBase m) m.questions m

/-- `handle_connection` up to the outbound `send_to`: parse the datagram,
resolve (stub or upstream), force the reply bit, serialise. `none` = the
process panicked before sending a reply. -/
def handleConnection (resolver : Option (List Nat → Option (List Nat))) (fuel : Nat)
    (buffer : List Nat) : Option (List Nat) :=
  (messageParse buffer fuel).bind fun origMsg =>
    (match resolver with
     | some net => resolveWithUpstream net fuel origMsg
     | none => some (resolveStub origMsg)).bind fun reply =>
      msgToBytes (setReply reply)

/-! ## Generic facts about the byte-wise cursor model -/

theorem byteAt_append_add (pre rest : List Nat) (i : Nat) :
    byteAt (pre ++ rest) (pre.length + i) = byteAt rest i := by
  unfold byteAt
  rw [List.getD_append_right pre rest 0 (pre.length + i) (Nat.le_add_right _ _),
    Nat.add_sub_cancel_left]

theorem byteAt_append_self (pre rest : List Nat) :
    byteAt (pre ++ rest) pre.length = byteAt rest 0 := by
  simpa using byteAt_append_add pre rest 0

theorem byteAt_cons_zero (a : Nat) (l : List Nat) : byteAt (a :: l) 0 = a := rfl

theorem byteAt_cons_succ (a : Nat) (l : List Nat) (i : Nat) :
    byteAt (a :: l) (i + 1) = byteAt l i := rfl

theorem nextN_eq_of_le (buf : List Nat) (pos n : Nat) (h : pos + n ≤ buf.length) :
    nextN buf pos n = pos + n := by
  unfold nextN; omega

theorem readRange (l rest : List Nat) :
    (List.range l.length).map (fun i => byteAt (l ++ rest) i) = l := by
  induction l with
  | nil => rfl
  | cons a t ih =>
    rw [List.length_cons, List.range_succ_eq_map, List.map_cons, List.map_map]
    exact congrArg (a :: ·) ih

theorem readExact_two (buf : List Nat) (pos : Nat) (s : List Nat)
    (h : pos + 2 ≤ buf.length) :
    readExact buf pos 2 s = ([byteAt buf pos, byteAt buf (pos + 1)], pos + 2) := by
  unfold readExact
  rw [if_pos h, show List.range 2 = [0, 1] from rfl]
  simp

theorem readExact_four (buf : List Nat) (pos : Nat) (s : List Nat)
    (h : pos + 4 ≤ buf.length) :
    readExact buf pos 4 s
      = ([byteAt buf pos, byteAt buf (pos + 1), byteAt buf (pos + 2), byteAt buf (pos + 3)],
        pos + 4) := by
  unfold readExact
  rw [if_pos h, show List.range 4 = [0, 1, 2, 3] from rfl]
  simp

theorem readExact_fst_length (buf : List Nat) (pos n : Nat) (s : List Nat)
    (h : s.length = n) : (readExact buf pos n s).1.length = n := by
  unfold readExact
  split
  · simp
  · exact h

theorem beU16_pair (a b : Nat) : beU16 [a, b] = a * 256 + b := rfl

theorem beU32_quad (a b c d : Nat) :
    beU32 [a, b, c, d] = a * 16777216 + b * 65536 + c * 256 + d := rfl

/-! ## C3: compression-loop behaviour of `Name::parse` -/

/-- A 14-byte buffer whose name at offset 12 is a compression pointer to
offset 12 itself: `0xC0 0x0C`. -/
def cSelfBuf : List Nat := [0, 0, 0, 0, 0, 0, 0, 0, 0, 0, 0, 0, 192, 12]

theorem selfPtr_loops (fuel : Nat) : ∀ acc, nameParseAux cSelfBuf fuel 12 acc = none := by
  induction fuel with
  | zero => intro acc; rfl
  | succ f ih =>
    intro acc
    have hb : byteAt cSelfBuf 12 = 192 := rfl
    have hb2 : byteAt cSelfBuf 13 = 12 := rfl
    have hN : nextN cSelfBuf 13 1 = 14 := rfl
    rw [nameParseAux, if_neg (show ¬cSelfBuf.length ≤ 12 by decide)]
    norm_num [hb, hb2, hN]
    rw [ih []]

/-- C3, amended: `Name::parse` keeps no set of visited offsets and there is
no `CompressionLoop` error in the source; on a buffer whose offset-12 byte
pair is a pointer to offset 12 itself, decoding never terminates: the
fuel-indexed model returns `none` at every fuel bound. -/
theorem c3_no_loop_protection : ∀ fuel, nameParse cSelfBuf fuel 12 = none := by
  intro fuel
  rw [nameParse, selfPtr_loops fuel []]
  rfl

/-- C3, counterexample to the claim as stated: at the self-pointing pointer
the decoder neither returns a name nor reports an error, even with 300
steps of fuel; there is no `CompressionLoop` in the code. -/
theorem c3_counterexample : nameParse cSelfBuf 300 12 = none := by
  rw [nameParse, selfPtr_loops 300 []]
  rfl

/-! ## C10: a compression pointer ends the name and leaves the cursor after
its two bytes -/

/-- C10: whenever `Name::parse` meets a compression pointer (top two bits of
the length byte are 11) whose two bytes are in the buffer, the name it
returns is the accumulated labels with the resolved name as the single final
element, and the cursor ends exactly after the 2-byte pointer. -/
theorem c10_pointer_final_and_cursor (buf : List Nat) (fuel pos : Nat)
    (acc ns : List (List Nat)) (p2 : Nat)
    (hptr : byteAt buf pos / 64 = 3) (hin : pos + 1 < buf.length)
    (h : nameParseAux buf fuel pos acc = some (ns, p2)) :
    p2 = pos + 2 ∧ ∃ sub q,
      nameParseAux buf (fuel - 1) (byteAt buf pos % 64 * 256 + byteAt buf (pos + 1)) []
        = some (sub, q) ∧ ns = acc ++ [joinDots sub] := by
  cases fuel with
  | zero => exact absurd h (by simp [nameParseAux])
  | succ f =>
    rw [nameParseAux] at h
    rw [if_neg (by omega)] at h
    simp only [hptr, if_pos] at h
    cases hsub : nameParseAux buf f (byteAt buf pos % 64 * 256 + byteAt buf (pos + 1)) [] with
    | none => rw [hsub] at h; exact absurd h (by simp)
    | some r =>
      rw [hsub] at h
      have h2 : nextN buf (pos + 1) 1 = pos + 2 := nextN_eq_of_le buf (pos + 1) 1 (by omega)
      rw [h2] at h
      obtain ⟨hns, hp⟩ := Prod.mk.injEq .. ▸ Option.some.injEq .. ▸ h
      exact ⟨hp.symm ▸ rfl, r.1, r.2, hsub, hns.symm ▸ rfl⟩

/-- A buffer holding the name "abc" at offset 0 and, at offset 5, a name that
is a single compression pointer back to offset 0. -/
def cPtrBuf : List Nat := [3, 97, 98, 99, 0, 192, 0]

/-- C10, witness: on `cPtrBuf` the pointer at offset 5 resolves to the labels
of "abc" and the cursor ends at offset 7 = 5 + 2. -/
theorem c10_witness : (7 : Nat) = 5 + 2 ∧ ∃ sub q,
    nameParseAux cPtrBuf (3 - 1) (byteAt cPtrBuf 5 % 64 * 256 + byteAt cPtrBuf 6) []
      = some (sub, q) ∧ [[97, 98, 99]] = ([] : List (List Nat)) ++ [joinDots sub] :=
  c10_pointer_final_and_cursor cPtrBuf 3 5 [] [[97, 98, 99]] 7 (by decide) (by decide) (by decide)

/-! ## C4: resource-record decoding and `rdlength` -/

/-- A buffer holding one resource record whose declared rdlength is 2, with 6
bytes after the length field. -/
def cC4buf : List Nat := [2, 97, 98, 0, 0, 1, 0, 1, 0, 0, 0, 60, 0, 2, 9, 9, 9, 9, 9, 9]

/-- A buffer holding one resource record whose declared rdlength is 100 with
no rdata bytes left at all. -/
def cC4buf2 : List Nat := [2, 97, 98, 0, 0, 1, 0, 1, 0, 0, 0, 60, 0, 100]

/-- The record `Answer::parse` actually produces from `cC4buf`. -/
def cC4ans : Answer := ⟨⟨[97, 98]⟩, .A, .IN, 60, 2, [9, 9, 9, 9]⟩

/-- C4, counterexample: with rdlength 2 the decoder still reads 4 rdata bytes
(the cursor moves from 14 to 18, and `rdata` has 4 bytes); with rdlength 100
and zero remaining bytes it does not fail at all (there is no `TruncatedInput`
in the source): the rdata `read_exact` fails, copies nothing into the reused
4-byte scratch, and the record comes back with the stale TTL bytes
`[0, 0, 0, 60]` as its rdata, the cursor still at 14. -/
theorem c4_counterexample :
    answerParse cC4buf 5 0 = some (cC4ans, 18) ∧
    answerParse cC4buf2 5 0 = some (⟨⟨[97, 98]⟩, .A, .IN, 60, 100, [0, 0, 0, 60]⟩, 14) := by
  decide

/-- C4, amended: `Answer::parse` reads the name, type, class, TTL and
rdlength fields and then always exactly 4 rdata bytes, whatever `rdlength`
declares; every successfully parsed record has a 4-byte rdata (on a failed
read it is the reused 4-byte scratch's previous contents, still 4 bytes). -/
theorem c4_rdata_always_four (buf : List Nat) (fuel pos : Nat) (a : Answer) (p2 : Nat)
    (h : answerParse buf fuel pos = some (a, p2)) : a.rdata.length = 4 := by
  unfold answerParse at h
  rcases Option.bind_eq_some.mp h with ⟨r1, hn, h⟩
  rcases Option.bind_eq_some.mp h with ⟨rt, hrt, h⟩
  rcases Option.map_eq_some'.mp h with ⟨rc, hrc, h2⟩
  have h3 := congrArg (fun x => x.1.rdata) h2
  simp only [] at h3
  rw [← h3]
  exact readExact_fst_length _ _ _ _ (readExact_fst_length _ _ _ _ rfl)

/-- C4, witness: the record parsed from `cC4buf` indeed carries 4 rdata
bytes. -/
theorem c4_witness : cC4ans.rdata.length = 4 :=
  c4_rdata_always_four cC4buf 5 0 cC4ans 18 (by decide)

/-! ## C6: flag encoding of out-of-range subfields -/

/-- Flags with opcode 16 (first value outside the 4-bit range) and every
other subfield zero. -/
def cOobFlags : Flags := ⟨.Query, 16, 0, 0, 0, 0, 0, 0⟩

/-- C6, counterexample: encoding flags with `opcode = 16` does not fail (the
source's `Flags::to_bytes` is total and has no `ValueOutOfRange` error); it
produces the bytes `[128, 0]`, whose top bit — the `qr` field — is set
although `qr` was `Query`. -/
theorem c6_counterexample :
    flagsToBytes cOobFlags = [128, 0] ∧ byteAt (flagsToBytes cOobFlags) 0 / 128 = 1 := by
  decide

/-- C6, amended: `Flags::to_bytes` never fails; an opcode in 16..31 (other
byte-0 subfields zero, `qr = Query`) is encoded by ORing its shifted bits into
the byte, so its high bit bleeds into the `qr` position: the byte decodes as
`qr = 1` with opcode `opcode - 16`. -/
theorem c6_flags_encode_bleeds (f : Flags) (hqr : f.qr = .Query) (h1 : 16 ≤ f.opcode)
    (h2 : f.opcode ≤ 31) (ha : f.aa = 0) (ht : f.tc = 0) (hr : f.rd = 0) :
    byteAt (flagsToBytes f) 0 = (f.opcode - 16) * 8 + 128 ∧
    byteAt (flagsToBytes f) 0 / 128 = 1 ∧
    byteAt (flagsToBytes f) 0 / 8 % 16 = f.opcode - 16 := by
  have hb : byteAt (flagsToBytes f) 0 = f.opcode * 8 := by
    simp only [flagsToBytes, byteAt, hqr, ha, ht, hr, MessageType.toNat, List.getD_cons_zero]
    rw [Nat.mod_eq_of_lt (show f.opcode * 8 < 256 by omega)]
    norm_num
  rw [hb]
  omega

/-- C6, witness: at `cOobFlags` the encoded first byte is 128, reads back as
`qr = 1` and opcode 0. -/
theorem c6_witness :
    byteAt (flagsToBytes cOobFlags) 0 = (cOobFlags.opcode - 16) * 8 + 128 ∧
    byteAt (flagsToBytes cOobFlags) 0 / 128 = 1 ∧
    byteAt (flagsToBytes cOobFlags) 0 / 8 % 16 = cOobFlags.opcode - 16 :=
  c6_flags_encode_bleeds cOobFlags rfl (by decide) (by decide) rfl rfl rfl

/-! ## C7 and C9: stub-mode synthesised answers -/

/-- C7: with no upstream configured, the stub arm leaves the question list
alone and appends exactly one synthesised answer per question — for a request
whose answer section is empty (as parsed requests with `ancount = 0` are),
the reply's answer section is exactly one address-type answer per question,
carrying the question's own name. -/
theorem c7_stub_one_answer_per_question (m : Message) (h : m.answers = []) :
    (resolveStub m).questions = m.questions ∧
    (resolveStub m).answers = m.questions.map synthAnswer ∧
    (resolveStub m).answers.length = m.questions.length ∧
    ∀ q : Question, (synthAnswer q).name = q.name ∧ (synthAnswer q).rtype = .A ∧
      (synthAnswer q).rclass = .IN := by
  refine ⟨rfl, ?_, ?_, fun q => ⟨rfl, rfl, rfl⟩⟩ <;> simp [resolveStub, h]

/-- A one-question request with an empty answer section. -/
def cStubReq : Message :=
  ⟨⟨1, ⟨.Query, 0, 0, 0, 0, 0, 0, 0⟩, 1, 0, 0, 0⟩, [⟨⟨[97, 98]⟩, .A, .IN⟩], [], [], []⟩

/-- C7, witness: the stub reply to `cStubReq` has its question and exactly one
synthesised answer. -/
theorem c7_witness :
    (resolveStub cStubReq).questions = cStubReq.questions ∧
    (resolveStub cStubReq).answers = cStubReq.questions.map synthAnswer ∧
    (resolveStub cStubReq).answers.length = cStubReq.questions.length ∧
    ∀ q : Question, (synthAnswer q).name = q.name ∧ (synthAnswer q).rtype = .A ∧
      (synthAnswer q).rclass = .IN :=
  c7_stub_one_answer_per_question cStubReq rfl

/-- C9: every answer the stub arm synthesises has resource type A, class IN,
TTL 60, and a 4-byte rdata holding the IPv4 address 8.8.8.8; the stub reply's
answer section is the request's answers followed by one such answer per
question. -/
theorem c9_stub_answer_fields (m : Message) :
    (resolveStub m).answers = m.answers ++ m.questions.map synthAnswer ∧
    ∀ q : Question, (synthAnswer q).name = q.name ∧ (synthAnswer q).rtype = .A ∧
      (synthAnswer q).rclass = .IN ∧ (synthAnswer q).ttl = 60 ∧
      (synthAnswer q).rdlength = 4 ∧ (synthAnswer q).rdata = ipv4ToBytes 8 8 8 8 ∧
      (synthAnswer q).rdata = [8, 8, 8, 8] ∧ (synthAnswer q).rdata.length = 4 :=
  ⟨rfl, fun _ => ⟨rfl, rfl, rfl, rfl, rfl, rfl, rfl, rfl⟩⟩

/-! ## C2: serialised header counts -/

theorem byteAt67_header (hd : Header) (rest : List Nat) :
    byteAt (headerToBytes hd ++ rest) 6 = hd.ancount / 256 % 256 ∧
    byteAt (headerToBytes hd ++ rest) 7 = hd.ancount % 256 := by
  constructor <;>
    (simp only [headerToBytes, u16be, flagsToBytes, List.cons_append, List.nil_append,
      List.append_assoc]; rfl)

/-- C2, amended: `Message::to_bytes` writes the stored header count fields
verbatim — they are not derived from the section lengths — and the stub arm
appends answers without ever touching `ancount`: the serialised reply's
answer-count bytes still hold the request's original `ancount` while the
answer section has grown by one answer per question. -/
theorem c2_counts_not_derived (m : Message) (bs : List Nat)
    (hbs : msgToBytes (setReply (resolveStub m)) = some bs)
    (hlt : m.header.ancount < 65536) :
    byteAt bs 6 * 256 + byteAt bs 7 = m.header.ancount ∧
    (resolveStub m).answers.length = m.answers.length + m.questions.length := by
  rcases Option.bind_eq_some.mp hbs with ⟨qb, hqb, hbs⟩
  rcases Option.map_eq_some'.mp hbs with ⟨ab, hab, hbs2⟩
  constructor
  · rw [← hbs2, List.append_assoc]
    obtain ⟨h6, h7⟩ := byteAt67_header (setReply (resolveStub m)).header (qb ++ ab)
    rw [h6, h7]
    have : (setReply (resolveStub m)).header.ancount = m.header.ancount := rfl
    rw [this]
    omega
  · simp [resolveStub]

/-- A one-question request whose header `ancount` is 0. -/
def cC2req : Message :=
  ⟨⟨1, ⟨.Query, 0, 0, 0, 0, 0, 0, 0⟩, 1, 0, 0, 0⟩, [⟨⟨[97, 98]⟩, .A, .IN⟩], [], [], []⟩

/-- C2, counterexample: the stub reply to `cC2req` holds one answer, yet the
serialised reply's answer-count bytes (offsets 6 and 7) say 0 — the count was
never updated when the answer was appended. -/
theorem c2_counterexample :
    (resolveStub cC2req).answers.length = 1 ∧
    ((msgToBytes (setReply (resolveStub cC2req))).map fun bs =>
      byteAt bs 6 * 256 + byteAt bs 7) = some 0 := by
  decide

/-- C2, witness: the amended statement evaluated on `cC2req`. -/
theorem c2_witness :
    byteAt ((msgToBytes (setReply (resolveStub cC2req))).getD []) 6 * 256 +
      byteAt ((msgToBytes (setReply (resolveStub cC2req))).getD []) 7 = cC2req.header.ancount ∧
    (resolveStub cC2req).answers.length = cC2req.answers.length + cC2req.questions.length :=
  c2_counts_not_derived cC2req _ (by decide) (by decide)

/-! ## C8: upstream-forwarding failures panic instead of degrading -/

theorem splitLoop_fail (net : List Nat → Option (List Nat)) (fuel : Nat) (base : Message)
    (q : Question) :
    ∀ (qs : List Question) (acc : Message), q ∈ qs →
      forwardQuery net fuel { base with questions := [q] } = none →
      splitLoop net fuel base qs acc = none := by
  intro qs
  induction qs with
  | nil => intro acc h _; exact absurd h (List.not_mem_nil q)
  | cons q2 qs ih =>
    intro acc hmem hfail
    rw [splitLoop]
    rcases List.mem_cons.mp hmem with rfl | hmem2
    · rw [hfail]
    · cases hfw : forwardQuery net fuel { base with questions := [q2] } with
      | none => rfl
      | some resp =>
        dsimp only
        by_cases han : 0 < resp.header.ancount
        · rw [if_pos han]
          cases resp.answers with
          | nil => rfl
          | cons a rest => exact ih _ hmem2 hfail
        · rw [if_neg han]
          exact ih _ hmem2 hfail

/-- C8, amended: an upstream-forwarding failure (no reply, or an undecodable
reply — both `none` of `forwardQuery`) makes `handle_connection` panic
(`expect`/`unwrap`), modelled as `none`: the whole reply is aborted and no
datagram is sent, instead of degrading to "no answer for this question". -/
theorem c8_upstream_failure_aborts (net : List Nat → Option (List Nat)) (fuel : Nat)
    (m : Message) :
    (m.header.qdcount = 1 → forwardQuery net fuel m = none →
      resolveWithUpstream net fuel m = none) ∧
    (m.header.qdcount ≠ 1 → ∀ q ∈ m.questions,
      forwardQuery net fuel (mkFwd m q) = none → resolveWithUpstream net fuel m = none) := by
  constructor
  · intro h1 hfail
    rw [resolveWithUpstream, if_pos h1, hfail]
  · intro hne q hq hfail
    rw [resolveWithUpstream, if_neg hne]
    exact splitLoop_fail net fuel (mkFwdBase m) q m.questions m hq hfail

/-- A two-question request for the C8 counterexample. -/
def cC8msg : Message :=
  ⟨⟨1, ⟨.Query, 0, 0, 0, 0, 0, 0, 0⟩, 2, 0, 0, 0⟩,
    [⟨⟨[97]⟩, .A, .IN⟩, ⟨⟨[98]⟩, .A, .IN⟩], [], [], []⟩

/-- C8, counterexample: with an upstream that never replies, the resolver
produces no reply at all (the `unwrap` panic, `none`), and the whole
connection handler dies without sending anything — the claim's "no answer for
this question, rest of the reply intact" behaviour does not happen, and the
panic terminates the single-threaded serving process. -/
theorem c8_counterexample :
    resolveWithUpstream (fun _ => none) 10 cC8msg = none ∧
    handleConnection (some fun _ => none) 10 ((msgToBytes cC8msg).getD []) = none := by
  decide

/-! ## C5: splitting a multi-question request and merging the answers -/

theorem parseList_length {α : Type} (p : Nat → Option (α × Nat)) :
    ∀ (n pos : Nat) (xs : List α) (p2 : Nat),
      parseList p n pos = some (xs, p2) → xs.length = n := by
  intro n
  induction n with
  | zero =>
    intro pos xs p2 h
    rw [parseList] at h
    injection h with h1
    injection h1 with ha hb
    rw [← ha]
    rfl
  | succ k ih =>
    intro pos xs p2 h
    rw [parseList] at h
    rcases Option.bind_eq_some.mp h with ⟨r, hr, h⟩
    rcases Option.map_eq_some'.mp h with ⟨rs, hrs, h2⟩
    injection h2 with ha hb
    rw [← ha, List.length_cons, ih r.2 rs.1 rs.2 hrs]

/-- Any successfully parsed message has as many questions as its header's
`qdcount` and as many answers as its header's `ancount` (`Message::parse`
reads exactly the advertised numbers of records). -/
theorem messageParse_counts (buf : List Nat) (fuel : Nat) (m : Message)
    (h : messageParse buf fuel = some m) :
    m.questions.length = m.header.qdcount ∧ m.answers.length = m.header.ancount := by
  unfold messageParse at h
  split at h
  · exact absurd h (by simp)
  · rcases Option.bind_eq_some.mp h with ⟨hd, hhd, h⟩
    rcases Option.bind_eq_some.mp h with ⟨qr, hq, h⟩
    rcases Option.bind_eq_some.mp h with ⟨ar, ha, h⟩
    rcases Option.bind_eq_some.mp h with ⟨nr, hn, h⟩
    rcases Option.map_eq_some'.mp h with ⟨dr, hdr, h2⟩
    rw [← h2]
    exact ⟨parseList_length _ _ _ _ _ hq, parseList_length _ _ _ _ _ ha⟩

/-- A decoded upstream reply is internally consistent: its answer list is as
long as its header's `ancount`. -/
theorem forwardQuery_ancount (net : List Nat → Option (List Nat)) (fuel : Nat)
    (msg r : Message) (h : forwardQuery net fuel msg = some r) :
    r.answers.length = r.header.ancount := by
  unfold forwardQuery at h
  rcases Option.bind_eq_some.mp h with ⟨out, hout, h⟩
  rcases Option.bind_eq_some.mp h with ⟨resp, hresp, h2⟩
  exact (messageParse_counts resp fuel r h2).2

theorem splitLoop_spec (net : List Nat → Option (List Nat)) (fuel : Nat) (base : Message) :
    ∀ (qs : List Question) (acc : Message),
      (∀ q ∈ qs, (forwardQuery net fuel { base with questions := [q] }).isSome) →
      ∃ res, splitLoop net fuel base qs acc = some res ∧
        res.questions = acc.questions ∧
        res.answers = acc.answers ++ qs.filterMap (fun q =>
          (forwardQuery net fuel { base with questions := [q] }).bind fun r =>
            r.answers.head?) ∧
        res.header.id = acc.header.id ∧ res.header.flags = acc.header.flags ∧
        res.header.qdcount = acc.header.qdcount := by
  intro qs
  induction qs with
  | nil =>
    intro acc _
    exact ⟨acc, rfl, rfl, by simp, rfl, rfl, rfl⟩
  | cons q qs ih =>
    intro acc hok
    have h1 := hok q (List.mem_cons_self q qs)
    cases hfw : forwardQuery net fuel { base with questions := [q] } with
    | none => rw [hfw] at h1; exact absurd h1 (by simp)
    | some resp =>
      have hcount := forwardQuery_ancount net fuel _ resp hfw
      rw [splitLoop, hfw]
      dsimp only
      by_cases han : 0 < resp.header.ancount
      · rw [if_pos han]
        cases hans : resp.answers with
        | nil => rw [hans] at hcount; simp at hcount; omega
        | cons a rest =>
          obtain ⟨res, hres, hq2, hans2, hid, hfl, hqd⟩ :=
            ih { acc with
                  header := { acc.header with ancount := acc.header.ancount + 1 },
                  answers := acc.answers ++ [a] }
              (fun q2 hq2 => hok q2 (List.mem_cons_of_mem q hq2))
          refine ⟨res, hres, hq2, ?_, hid, hfl, hqd⟩
          rw [hans2, List.filterMap_cons]
          rw [hfw, Option.some_bind]
          rw [hans]
          simp
      · rw [if_neg han]
        have hempty : resp.answers = [] := by
          have h0 : resp.header.ancount = 0 := by omega
          rw [h0] at hcount
          exact List.length_eq_zero.mp hcount
        obtain ⟨res, hres, hq2, hans2, hid, hfl, hqd⟩ :=
          ih acc (fun q2 hq2 => hok q2 (List.mem_cons_of_mem q hq2))
        refine ⟨res, hres, hq2, ?_, hid, hfl, hqd⟩
        rw [hans2, List.filterMap_cons]
        rw [hfw, Option.some_bind]
        rw [hempty]
        simp

/-- C5: a request with `qdcount ≠ 1` and an empty answer section is split:
each question is forwarded on its own in a message that keeps the original
header's id and flags (`qdcount` forced to 1); the reply keeps every original
question in order, and its answer section is, in question order, the first
answer of each per-question upstream reply that contained at least one
answer — questions answered with zero answers contribute nothing. -/
theorem c5_split_and_merge (net : List Nat → Option (List Nat)) (fuel : Nat) (m : Message)
    (hne : m.header.qdcount ≠ 1) (hreq : m.answers = [])
    (hok : ∀ q ∈ m.questions, (forwardQuery net fuel (mkFwd m q)).isSome) :
    ∃ res, resolveWithUpstream net fuel m = some res ∧
      res.questions = m.questions ∧
      res.answers = m.questions.filterMap (fun q =>
        (forwardQuery net fuel (mkFwd m q)).bind fun r => r.answers.head?) ∧
      res.header.id = m.header.id ∧ res.header.flags = m.header.flags ∧
      ∀ q ∈ m.questions, (mkFwd m q).header.id = m.header.id ∧
        (mkFwd m q).header.flags = m.header.flags ∧
        (mkFwd m q).header.qdcount = 1 ∧ (mkFwd m q).questions = [q] := by
  rw [resolveWithUpstream, if_neg hne]
  obtain ⟨res, hres, hq2, hans2, hid, hfl, _⟩ :=
    splitLoop_spec net fuel (mkFwdBase m) m.questions m hok
  refine ⟨res, hres, hq2, ?_, hid, hfl, fun q _ => ⟨rfl, rfl, rfl, rfl⟩⟩
  rw [hans2, hreq, List.nil_append]
  rfl

/-- The question "a". -/
def cQa : Question := ⟨⟨[97]⟩, .A, .IN⟩

/-- The question "b". -/
def cQb : Question := ⟨⟨[98]⟩, .A, .IN⟩

/-- A two-question request carrying questions "a" and "b". -/
def cC5req : Message :=
  ⟨⟨9, ⟨.Query, 0, 0, 0, 1, 0, 0, 0⟩, 2, 0, 0, 0⟩, [cQa, cQb], [], [], []⟩

/-- The bytes the resolver forwards for question "a". -/
def cFwdA : List Nat := (msgToBytes (mkFwd cC5req cQa)).getD []

/-- An upstream reply answering "a" with one A record. -/
def cReplyA : Message :=
  ⟨⟨9, ⟨.Reply, 0, 0, 0, 1, 0, 0, 0⟩, 1, 1, 0, 0⟩, [cQa],
    [⟨⟨[97]⟩, .A, .IN, 60, 4, [1, 2, 3, 4]⟩], [], []⟩

/-- An upstream reply with zero answers (for "b"). -/
def cReplyB : Message :=
  ⟨⟨9, ⟨.Reply, 0, 0, 0, 1, 0, 0, 0⟩, 1, 0, 0, 0⟩, [cQb], [], [], []⟩

/-- An upstream that answers "a" and returns zero answers for anything else. -/
def cNet : List Nat → Option (List Nat) := fun bs =>
  if bs = cFwdA then msgToBytes cReplyA else msgToBytes cReplyB

/-- C5, witness: forwarding `cC5req` through `cNet` yields a reply with both
questions in order and exactly the first answer of the "a" reply. -/
theorem c5_witness :
    ∃ res, resolveWithUpstream cNet 10 cC5req = some res ∧
      res.questions = cC5req.questions ∧
      res.answers = cC5req.questions.filterMap (fun q =>
        (forwardQuery cNet 10 (mkFwd cC5req q)).bind fun r => r.answers.head?) ∧
      res.header.id = cC5req.header.id ∧ res.header.flags = cC5req.header.flags ∧
      ∀ q ∈ cC5req.questions, (mkFwd cC5req q).header.id = cC5req.header.id ∧
        (mkFwd cC5req q).header.flags = cC5req.header.flags ∧
        (mkFwd cC5req q).header.qdcount = 1 ∧ (mkFwd cC5req q).questions = [q] :=
  c5_split_and_merge cNet 10 cC5req (by decide) rfl (by decide)

/-! ## C1: round-tripping `Message::to_bytes` through `Message::parse` -/

theorem labelsBytes_cons (l : List Nat) (ls : List (List Nat)) :
    labelsBytes (l :: ls) = l.length :: (l ++ labelsBytes ls) := by
  simp [labelsBytes]

theorem nameParseAux_encode (labels : List (List Nat)) :
    ∀ (pre suffix : List Nat) (fuel : Nat) (acc : List (List Nat)),
      (∀ l ∈ labels, 0 < l.length ∧ l.length ≤ 63) →
      labels.length < fuel →
      nameParseAux (pre ++ (labelsBytes labels ++ 0 :: suffix)) fuel pre.length acc =
        some (acc ++ labels, pre.length + (labelsBytes labels).length + 1) := by
  induction labels with
  | nil =>
    intro pre suffix fuel acc _ hf
    cases fuel with
    | zero => exact absurd hf (by omega)
    | succ f =>
      simp only [show labelsBytes ([] : List (List Nat)) = [] from rfl, List.nil_append]
      have hb : byteAt (pre ++ 0 :: suffix) pre.length = 0 := by
        rw [byteAt_append_self]
        rfl
      rw [nameParseAux, if_neg (show ¬(pre ++ 0 :: suffix).length ≤ pre.length by
        simp only [List.length_append, List.length_cons]; omega)]
      simp only [hb]
      simp
  | cons l ls ih =>
    intro pre suffix fuel acc hl hf
    cases fuel with
    | zero => exact absurd hf (by omega)
    | succ f =>
      obtain ⟨hl1, hl2⟩ := hl l (List.mem_cons_self l ls)
      rw [labelsBytes_cons]
      simp only [List.cons_append, List.append_assoc]
      rw [nameParseAux, if_neg (show
        ¬(pre ++ l.length :: (l ++ (labelsBytes ls ++ 0 :: suffix))).length ≤ pre.length by
          simp only [List.length_append, List.length_cons]; omega)]
      have hb : byteAt (pre ++ l.length :: (l ++ (labelsBytes ls ++ 0 :: suffix)))
          pre.length = l.length := by
        rw [byteAt_append_self]
        rfl
      simp only [hb]
      rw [if_neg (show ¬l.length / 64 = 3 by rw [Nat.div_eq_of_lt (by omega)]; omega),
        if_neg (show ¬l.length = 0 by omega)]
      have hlab : (List.range l.length).map (fun i =>
          byteAt (pre ++ l.length :: (l ++ (labelsBytes ls ++ 0 :: suffix)))
            (pre.length + 1 + i)) = l := by
        have h1 : ∀ i, byteAt (pre ++ l.length :: (l ++ (labelsBytes ls ++ 0 :: suffix)))
            (pre.length + 1 + i) = byteAt (l ++ (labelsBytes ls ++ 0 :: suffix)) i := by
          intro i
          have e1 : pre ++ l.length :: (l ++ (labelsBytes ls ++ 0 :: suffix))
              = (pre ++ [l.length]) ++ (l ++ (labelsBytes ls ++ 0 :: suffix)) := by
            simp
          have e2 : pre.length + 1 + i = (pre ++ [l.length]).length + i := by
            simp
          rw [e1, e2, byteAt_append_add]
        rw [List.map_congr_left fun i _ => h1 i]
        exact readRange l _
      rw [hlab]
      have hnext : nextN (pre ++ l.length :: (l ++ (labelsBytes ls ++ 0 :: suffix)))
          (pre.length + 1) l.length = pre.length + 1 + l.length := by
        apply nextN_eq_of_le
        simp only [List.length_append, List.length_cons]
        omega
      rw [hnext]
      have hrec := ih (pre ++ l.length :: l) suffix f (acc ++ [l])
        (fun x hx => hl x (List.mem_cons_of_mem l hx))
        (by rw [List.length_cons] at hf; omega)
      have hBeq : (pre ++ l.length :: l) ++ (labelsBytes ls ++ 0 :: suffix)
          = pre ++ l.length :: (l ++ (labelsBytes ls ++ 0 :: suffix)) := by
        simp
      have hposeq : (pre ++ l.length :: l).length = pre.length + 1 + l.length := by
        simp only [List.length_append, List.length_cons]
        omega
      rw [hBeq, hposeq] at hrec
      rw [hrec]
      simp only [Option.some.injEq, Prod.mk.injEq]
      refine ⟨by simp, ?_⟩
      simp only [List.length_cons, List.length_append]
      omega

theorem nameParse_encode (nm : Name) (nb : List Nat) :
    ∀ (pre suffix : List Nat) (fuel : Nat),
      nameToBytes nm = some nb →
      (∀ l ∈ nm.name.splitOn 46, 0 < l.length ∧ l.length ≤ 63) →
      (nm.name.splitOn 46).length < fuel →
      nameParse (pre ++ (nb ++ suffix)) fuel pre.length = some (nm, pre.length + nb.length) := by
  intro pre suffix fuel hnb hl hf
  unfold nameToBytes at hnb
  rw [if_pos (by
    rw [List.all_eq_true]
    intro l hli
    have := (hl l hli).2
    simp only [decide_eq_true_eq]
    omega)] at hnb
  injection hnb with hnb
  rw [← hnb]
  rw [nameParse]
  have heq : pre ++ ((labelsBytes (nm.name.splitOn 46) ++ [0]) ++ suffix)
      = pre ++ (labelsBytes (nm.name.splitOn 46) ++ 0 :: suffix) := by
    simp
  rw [heq, nameParseAux_encode (nm.name.splitOn 46) pre suffix fuel [] hl hf]
  simp only [Option.map_some', List.nil_append]
  have hjoin : joinDots (nm.name.splitOn 46) = nm.name := by
    rw [joinDots]
    exact List.intercalate_splitOn _ 46
  rw [hjoin]
  simp only [Option.some.injEq, Prod.mk.injEq, List.length_append, List.length_cons,
    List.length_nil]
  exact ⟨trivial, by omega⟩

theorem mtOfCode_toNat (mt : MessageType) : MessageType.ofCode mt.toNat = some mt := by
  cases mt <;> rfl

theorem rtOfCode_toNat (t : ResourceType) : ResourceType.ofCode t.toNat = some t := by
  cases t <;> rfl

theorem rcOfCode_toNat (c : ResourceClass) : ResourceClass.ofCode c.toNat = some c := by
  cases c <;> rfl

theorem rt_toNat_lt (t : ResourceType) : t.toNat < 65536 := by
  cases t <;> decide

theorem rc_toNat_lt (c : ResourceClass) : c.toNat < 65536 := by
  cases c <;> decide

theorem u16be_length (n : Nat) : (u16be n).length = 2 := rfl

theorem u32be_length (n : Nat) : (u32be n).length = 4 := rfl

theorem questionParse_encode (q : Question) (qb pre suffix : List Nat) (fuel : Nat)
    (hqb : questionToBytes q = some qb)
    (hl : ∀ l ∈ q.name.name.splitOn 46, 0 < l.length ∧ l.length ≤ 63)
    (hf : (q.name.name.splitOn 46).length < fuel) :
    questionParse (pre ++ (qb ++ suffix)) fuel pre.length = some (q, pre.length + qb.length) := by
  unfold questionToBytes at hqb
  rcases Option.map_eq_some'.mp hqb with ⟨nb, hnb, heq⟩
  subst heq
  simp only [List.append_assoc]
  unfold questionParse
  rw [nameParse_encode q.name nb pre (u16be q.rtype.toNat ++ (u16be q.rclass.toNat ++ suffix))
    fuel hnb hl hf]
  simp only [Option.some_bind]
  have hlen : (pre ++ (nb ++ (u16be q.rtype.toNat ++ (u16be q.rclass.toNat ++ suffix)))).length
      = pre.length + nb.length + (4 + suffix.length) := by
    simp only [List.length_append, u16be_length]
    omega
  rw [readExact_two (pre ++ (nb ++ (u16be q.rtype.toNat ++ (u16be q.rclass.toNat ++ suffix))))
    (pre.length + nb.length) [0, 0] (by rw [hlen]; omega)]
  dsimp only
  rw [readExact_two (pre ++ (nb ++ (u16be q.rtype.toNat ++ (u16be q.rclass.toNat ++ suffix))))
    (pre.length + nb.length + 2)
    [byteAt (pre ++ (nb ++ (u16be q.rtype.toNat ++ (u16be q.rclass.toNat ++ suffix))))
      (pre.length + nb.length),
     byteAt (pre ++ (nb ++ (u16be q.rtype.toNat ++ (u16be q.rclass.toNat ++ suffix))))
      (pre.length + nb.length + 1)]
    (by rw [hlen]; omega)]
  dsimp only
  rw [show pre.length + nb.length + 2 + 1 = pre.length + nb.length + 3 by omega]
  rw [beU16_pair, beU16_pair]
  have hgr : pre ++ (nb ++ (u16be q.rtype.toNat ++ (u16be q.rclass.toNat ++ suffix)))
      = (pre ++ nb) ++ (u16be q.rtype.toNat ++ (u16be q.rclass.toNat ++ suffix)) := by simp
  have hpl : pre.length + nb.length = (pre ++ nb).length := by simp
  have e0 : byteAt (pre ++ (nb ++ (u16be q.rtype.toNat ++ (u16be q.rclass.toNat ++ suffix))))
      (pre.length + nb.length) = q.rtype.toNat / 256 % 256 := by
    rw [hgr, hpl, byteAt_append_self]
    rfl
  have e1 : byteAt (pre ++ (nb ++ (u16be q.rtype.toNat ++ (u16be q.rclass.toNat ++ suffix))))
      (pre.length + nb.length + 1) = q.rtype.toNat % 256 := by
    rw [hgr, hpl, byteAt_append_add]
    rfl
  have e2 : byteAt (pre ++ (nb ++ (u16be q.rtype.toNat ++ (u16be q.rclass.toNat ++ suffix))))
      (pre.length + nb.length + 2) = q.rclass.toNat / 256 % 256 := by
    rw [hgr, hpl, byteAt_append_add]
    rfl
  have e3 : byteAt (pre ++ (nb ++ (u16be q.rtype.toNat ++ (u16be q.rclass.toNat ++ suffix))))
      (pre.length + nb.length + 3) = q.rclass.toNat % 256 := by
    rw [hgr, hpl, byteAt_append_add]
    rfl
  rw [e0, e1,
    show q.rtype.toNat / 256 % 256 * 256 + q.rtype.toNat % 256 = q.rtype.toNat by
      have := rt_toNat_lt q.rtype; omega,
    rtOfCode_toNat]
  simp only [Option.some_bind]
  rw [e2, e3,
    show q.rclass.toNat / 256 % 256 * 256 + q.rclass.toNat % 256 = q.rclass.toNat by
      have := rc_toNat_lt q.rclass; omega,
    rcOfCode_toNat]
  simp only [Option.map_some', Option.some.injEq, Prod.mk.injEq, List.length_append,
    u16be_length]
  exact ⟨by trivial, by omega⟩

theorem length_eq_four_exists {l : List Nat} : l.length = 4 → ∃ a b c d, l = [a, b, c, d] :=
  fun _ => let [a, b, c, d] := l; ⟨a, b, c, d, rfl⟩

theorem answerParse_encode (a : Answer) (ab pre suffix : List Nat) (fuel : Nat)
    (hab : answerToBytes a = some ab)
    (hl : ∀ l ∈ a.name.name.splitOn 46, 0 < l.length ∧ l.length ≤ 63)
    (hf : (a.name.name.splitOn 46).length < fuel)
    (httl : a.ttl < 4294967296) (hrdl : a.rdlength < 65536)
    (hrd : a.rdata.length = 4) :
    answerParse (pre ++ (ab ++ suffix)) fuel pre.length = some (a, pre.length + ab.length) := by
  obtain ⟨r0, r1, r2, r3, hr⟩ := length_eq_four_exists hrd
  unfold answerToBytes at hab
  rcases Option.map_eq_some'.mp hab with ⟨nb, hnb, heq⟩
  subst heq
  rw [hr]
  simp only [List.append_assoc]
  unfold answerParse
  rw [nameParse_encode a.name nb pre
    (u16be a.rtype.toNat ++ (u16be a.rclass.toNat ++ (u32be a.ttl ++ (u16be a.rdlength ++
      ([r0, r1, r2, r3] ++ suffix))))) fuel hnb hl hf]
  simp only [Option.some_bind]
  have hlen : (pre ++ (nb ++ (u16be a.rtype.toNat ++ (u16be a.rclass.toNat ++ (u32be a.ttl ++
      (u16be a.rdlength ++ ([r0, r1, r2, r3] ++ suffix))))))).length
      = pre.length + nb.length + (14 + suffix.length) := by
    simp only [List.length_append, u16be_length, u32be_length, List.length_cons,
      List.length_nil]
    omega
  rw [readExact_two (pre ++ (nb ++ (u16be a.rtype.toNat ++ (u16be a.rclass.toNat ++ (u32be a.ttl ++
      (u16be a.rdlength ++ ([r0, r1, r2, r3] ++ suffix)))))))
    (pre.length + nb.length) [0, 0] (by rw [hlen]; omega)]
  dsimp only
  rw [readExact_two (pre ++ (nb ++ (u16be a.rtype.toNat ++ (u16be a.rclass.toNat ++ (u32be a.ttl ++
      (u16be a.rdlength ++ ([r0, r1, r2, r3] ++ suffix)))))))
    (pre.length + nb.length + 2)
    [byteAt (pre ++ (nb ++ (u16be a.rtype.toNat ++ (u16be a.rclass.toNat ++ (u32be a.ttl ++
      (u16be a.rdlength ++ ([r0, r1, r2, r3] ++ suffix))))))) (pre.length + nb.length),
     byteAt (pre ++ (nb ++ (u16be a.rtype.toNat ++ (u16be a.rclass.toNat ++ (u32be a.ttl ++
      (u16be a.rdlength ++ ([r0, r1, r2, r3] ++ suffix))))))) (pre.length + nb.length + 1)]
    (by rw [hlen]; omega)]
  dsimp only
  rw [show pre.length + nb.length + 2 + 1 = pre.length + nb.length + 3 by omega,
    show pre.length + nb.length + 2 + 2 = pre.length + nb.length + 4 by omega]
  rw [readExact_four (pre ++ (nb ++ (u16be a.rtype.toNat ++ (u16be a.rclass.toNat ++ (u32be a.ttl ++
      (u16be a.rdlength ++ ([r0, r1, r2, r3] ++ suffix)))))))
    (pre.length + nb.length + 4) [0, 0, 0, 0] (by rw [hlen]; omega)]
  dsimp only
  rw [show pre.length + nb.length + 4 + 1 = pre.length + nb.length + 5 by omega,
    show pre.length + nb.length + 4 + 2 = pre.length + nb.length + 6 by omega,
    show pre.length + nb.length + 4 + 3 = pre.length + nb.length + 7 by omega,
    show pre.length + nb.length + 4 + 4 = pre.length + nb.length + 8 by omega]
  rw [readExact_two (pre ++ (nb ++ (u16be a.rtype.toNat ++ (u16be a.rclass.toNat ++ (u32be a.ttl ++
      (u16be a.rdlength ++ ([r0, r1, r2, r3] ++ suffix)))))))
    (pre.length + nb.length + 8)
    [byteAt (pre ++ (nb ++ (u16be a.rtype.toNat ++ (u16be a.rclass.toNat ++ (u32be a.ttl ++
      (u16be a.rdlength ++ ([r0, r1, r2, r3] ++ suffix))))))) (pre.length + nb.length + 2),
     byteAt (pre ++ (nb ++ (u16be a.rtype.toNat ++ (u16be a.rclass.toNat ++ (u32be a.ttl ++
      (u16be a.rdlength ++ ([r0, r1, r2, r3] ++ suffix))))))) (pre.length + nb.length + 3)]
    (by rw [hlen]; omega)]
  dsimp only
  rw [show pre.length + nb.length + 8 + 1 = pre.length + nb.length + 9 by omega,
    show pre.length + nb.length + 8 + 2 = pre.length + nb.length + 10 by omega]
  rw [readExact_four (pre ++ (nb ++ (u16be a.rtype.toNat ++ (u16be a.rclass.toNat ++ (u32be a.ttl ++
      (u16be a.rdlength ++ ([r0, r1, r2, r3] ++ suffix)))))))
    (pre.length + nb.length + 10)
    [byteAt (pre ++ (nb ++ (u16be a.rtype.toNat ++ (u16be a.rclass.toNat ++ (u32be a.ttl ++
      (u16be a.rdlength ++ ([r0, r1, r2, r3] ++ suffix))))))) (pre.length + nb.length + 4),
     byteAt (pre ++ (nb ++ (u16be a.rtype.toNat ++ (u16be a.rclass.toNat ++ (u32be a.ttl ++
      (u16be a.rdlength ++ ([r0, r1, r2, r3] ++ suffix))))))) (pre.length + nb.length + 5),
     byteAt (pre ++ (nb ++ (u16be a.rtype.toNat ++ (u16be a.rclass.toNat ++ (u32be a.ttl ++
      (u16be a.rdlength ++ ([r0, r1, r2, r3] ++ suffix))))))) (pre.length + nb.length + 6),
     byteAt (pre ++ (nb ++ (u16be a.rtype.toNat ++ (u16be a.rclass.toNat ++ (u32be a.ttl ++
      (u16be a.rdlength ++ ([r0, r1, r2, r3] ++ suffix))))))) (pre.length + nb.length + 7)]
    (by rw [hlen]; omega)]
  dsimp only
  rw [show pre.length + nb.length + 10 + 1 = pre.length + nb.length + 11 by omega,
    show pre.length + nb.length + 10 + 2 = pre.length + nb.length + 12 by omega,
    show pre.length + nb.length + 10 + 3 = pre.length + nb.length + 13 by omega]
  rw [beU16_pair, beU16_pair, beU16_pair, beU32_quad]
  have hgr : pre ++ (nb ++ (u16be a.rtype.toNat ++ (u16be a.rclass.toNat ++ (u32be a.ttl ++
        (u16be a.rdlength ++ ([r0, r1, r2, r3] ++ suffix))))))
      = (pre ++ nb) ++ (u16be a.rtype.toNat ++ (u16be a.rclass.toNat ++ (u32be a.ttl ++
        (u16be a.rdlength ++ ([r0, r1, r2, r3] ++ suffix))))) := by simp
  have hpl : pre.length + nb.length = (pre ++ nb).length := by simp
  have e0 : byteAt (pre ++ (nb ++ (u16be a.rtype.toNat ++ (u16be a.rclass.toNat ++ (u32be a.ttl ++
      (u16be a.rdlength ++ ([r0, r1, r2, r3] ++ suffix))))))) (pre.length + nb.length)
      = a.rtype.toNat / 256 % 256 := by
    rw [hgr, hpl, byteAt_append_self]
    rfl
  have e1 : byteAt (pre ++ (nb ++ (u16be a.rtype.toNat ++ (u16be a.rclass.toNat ++ (u32be a.ttl ++
      (u16be a.rdlength ++ ([r0, r1, r2, r3] ++ suffix))))))) (pre.length + nb.length + 1)
      = a.rtype.toNat % 256 := by
    rw [hgr, hpl, byteAt_append_add]
    rfl
  have e2 : byteAt (pre ++ (nb ++ (u16be a.rtype.toNat ++ (u16be a.rclass.toNat ++ (u32be a.ttl ++
      (u16be a.rdlength ++ ([r0, r1, r2, r3] ++ suffix))))))) (pre.length + nb.length + 2)
      = a.rclass.toNat / 256 % 256 := by
    rw [hgr, hpl, byteAt_append_add]
    rfl
  have e3 : byteAt (pre ++ (nb ++ (u16be a.rtype.toNat ++ (u16be a.rclass.toNat ++ (u32be a.ttl ++
      (u16be a.rdlength ++ ([r0, r1, r2, r3] ++ suffix))))))) (pre.length + nb.length + 3)
      = a.rclass.toNat % 256 := by
    rw [hgr, hpl, byteAt_append_add]
    rfl
  have e4 : byteAt (pre ++ (nb ++ (u16be a.rtype.toNat ++ (u16be a.rclass.toNat ++ (u32be a.ttl ++
      (u16be a.rdlength ++ ([r0, r1, r2, r3] ++ suffix))))))) (pre.length + nb.length + 4)
      = a.ttl / 16777216 % 256 := by
    rw [hgr, hpl, byteAt_append_add]
    rfl
  have e5 : byteAt (pre ++ (nb ++ (u16be a.rtype.toNat ++ (u16be a.rclass.toNat ++ (u32be a.ttl ++
      (u16be a.rdlength ++ ([r0, r1, r2, r3] ++ suffix))))))) (pre.length + nb.length + 5)
      = a.ttl / 65536 % 256 := by
    rw [hgr, hpl, byteAt_append_add]
    rfl
  have e6 : byteAt (pre ++ (nb ++ (u16be a.rtype.toNat ++ (u16be a.rclass.toNat ++ (u32be a.ttl ++
      (u16be a.rdlength ++ ([r0, r1, r2, r3] ++ suffix))))))) (pre.length + nb.length + 6)
      = a.ttl / 256 % 256 := by
    rw [hgr, hpl, byteAt_append_add]
    rfl
  have e7 : byteAt (pre ++ (nb ++ (u16be a.rtype.toNat ++ (u16be a.rclass.toNat ++ (u32be a.ttl ++
      (u16be a.rdlength ++ ([r0, r1, r2, r3] ++ suffix))))))) (pre.length + nb.length + 7)
      = a.ttl % 256 := by
    rw [hgr, hpl, byteAt_append_add]
    rfl
  have e8 : byteAt (pre ++ (nb ++ (u16be a.rtype.toNat ++ (u16be a.rclass.toNat ++ (u32be a.ttl ++
      (u16be a.rdlength ++ ([r0, r1, r2, r3] ++ suffix))))))) (pre.length + nb.length + 8)
      = a.rdlength / 256 % 256 := by
    rw [hgr, hpl, byteAt_append_add]
    rfl
  have e9 : byteAt (pre ++ (nb ++ (u16be a.rtype.toNat ++ (u16be a.rclass.toNat ++ (u32be a.ttl ++
      (u16be a.rdlength ++ ([r0, r1, r2, r3] ++ suffix))))))) (pre.length + nb.length + 9)
      = a.rdlength % 256 := by
    rw [hgr, hpl, byteAt_append_add]
    rfl
  have e10 : byteAt (pre ++ (nb ++ (u16be a.rtype.toNat ++ (u16be a.rclass.toNat ++ (u32be a.ttl ++
      (u16be a.rdlength ++ ([r0, r1, r2, r3] ++ suffix))))))) (pre.length + nb.length + 10)
      = r0 := by
    rw [hgr, hpl, byteAt_append_add]
    rfl
  have e11 : byteAt (pre ++ (nb ++ (u16be a.rtype.toNat ++ (u16be a.rclass.toNat ++ (u32be a.ttl ++
      (u16be a.rdlength ++ ([r0, r1, r2, r3] ++ suffix))))))) (pre.length + nb.length + 11)
      = r1 := by
    rw [hgr, hpl, byteAt_append_add]
    rfl
  have e12 : byteAt (pre ++ (nb ++ (u16be a.rtype.toNat ++ (u16be a.rclass.toNat ++ (u32be a.ttl ++
      (u16be a.rdlength ++ ([r0, r1, r2, r3] ++ suffix))))))) (pre.length + nb.length + 12)
      = r2 := by
    rw [hgr, hpl, byteAt_append_add]
    rfl
  have e13 : byteAt (pre ++ (nb ++ (u16be a.rtype.toNat ++ (u16be a.rclass.toNat ++ (u32be a.ttl ++
      (u16be a.rdlength ++ ([r0, r1, r2, r3] ++ suffix))))))) (pre.length + nb.length + 13)
      = r3 := by
    rw [hgr, hpl, byteAt_append_add]
    rfl
  rw [e0, e1,
    show a.rtype.toNat / 256 % 256 * 256 + a.rtype.toNat % 256 = a.rtype.toNat by
      have := rt_toNat_lt a.rtype; omega,
    rtOfCode_toNat]
  simp only [Option.some_bind]
  rw [e2, e3,
    show a.rclass.toNat / 256 % 256 * 256 + a.rclass.toNat % 256 = a.rclass.toNat by
      have := rc_toNat_lt a.rclass; omega,
    rcOfCode_toNat]
  simp only [Option.map_some']
  rw [e4, e5, e6, e7,
    show a.ttl / 16777216 % 256 * 16777216 + a.ttl / 65536 % 256 * 65536 +
      a.ttl / 256 % 256 * 256 + a.ttl % 256 = a.ttl by omega,
    e8, e9,
    show a.rdlength / 256 % 256 * 256 + a.rdlength % 256 = a.rdlength by omega,
    e10, e11, e12, e13]
  simp only [Option.some.injEq, Prod.mk.injEq, List.length_append, u16be_length, u32be_length,
    List.length_cons, List.length_nil]
  constructor
  · show Answer.mk a.name a.rtype a.rclass a.ttl a.rdlength [r0, r1, r2, r3] = a
    rw [← hr]
  · omega

theorem parseListQ_encode :
    ∀ (qs : List Question) (qb pre suffix : List Nat) (fuel : Nat),
      toBytesList questionToBytes qs = some qb →
      (∀ q ∈ qs, (∀ l ∈ q.name.name.splitOn 46, 0 < l.length ∧ l.length ≤ 63) ∧
        (q.name.name.splitOn 46).length < fuel) →
      parseList (questionParse (pre ++ (qb ++ suffix)) fuel) qs.length pre.length =
        some (qs, pre.length + qb.length) := by
  intro qs
  induction qs with
  | nil =>
    intro qb pre suffix fuel hqb _
    rw [toBytesList] at hqb
    injection hqb with h
    rw [← h, List.length_nil, parseList]
    simp
  | cons q qs ih =>
    intro qb pre suffix fuel hqb hcond
    rw [toBytesList] at hqb
    rcases Option.bind_eq_some.mp hqb with ⟨b, hb, hqb2⟩
    rcases Option.map_eq_some'.mp hqb2 with ⟨bs, hbs, heq⟩
    have heq2 : b ++ bs = qb := heq
    subst heq2
    obtain ⟨hcl, hcf⟩ := hcond q (List.mem_cons_self q qs)
    rw [show pre ++ ((b ++ bs) ++ suffix) = pre ++ (b ++ (bs ++ suffix)) by simp,
      List.length_cons, parseList,
      questionParse_encode q b pre (bs ++ suffix) fuel hb hcl hcf, Option.some_bind]
    dsimp only
    have hih := ih bs (pre ++ b) suffix fuel hbs
      (fun x hx => hcond x (List.mem_cons_of_mem q hx))
    rw [show (pre ++ b) ++ (bs ++ suffix) = pre ++ (b ++ (bs ++ suffix)) by simp,
      show (pre ++ b).length = pre.length + b.length by simp] at hih
    rw [hih, Option.map_some']
    dsimp only
    simp only [Option.some.injEq, Prod.mk.injEq, List.length_append]
    exact ⟨by trivial, by omega⟩

theorem parseListA_encode :
    ∀ (xs : List Answer) (ab pre suffix : List Nat) (fuel : Nat),
      toBytesList answerToBytes xs = some ab →
      (∀ a ∈ xs, (∀ l ∈ a.name.name.splitOn 46, 0 < l.length ∧ l.length ≤ 63) ∧
        (a.name.name.splitOn 46).length < fuel ∧ a.ttl < 4294967296 ∧
        a.rdlength < 65536 ∧ a.rdata.length = 4) →
      parseList (answerParse (pre ++ (ab ++ suffix)) fuel) xs.length pre.length =
        some (xs, pre.length + ab.length) := by
  intro xs
  induction xs with
  | nil =>
    intro ab pre suffix fuel hab _
    rw [toBytesList] at hab
    injection hab with h
    rw [← h, List.length_nil, parseList]
    simp
  | cons a xs ih =>
    intro ab pre suffix fuel hab hcond
    rw [toBytesList] at hab
    rcases Option.bind_eq_some.mp hab with ⟨b, hb, hab2⟩
    rcases Option.map_eq_some'.mp hab2 with ⟨bs, hbs, heq⟩
    have heq2 : b ++ bs = ab := heq
    subst heq2
    obtain ⟨hcl, hcf, httl, hrdl, hrd⟩ := hcond a (List.mem_cons_self a xs)
    rw [show pre ++ ((b ++ bs) ++ suffix) = pre ++ (b ++ (bs ++ suffix)) by simp,
      List.length_cons, parseList,
      answerParse_encode a b pre (bs ++ suffix) fuel hb hcl hcf httl hrdl hrd,
      Option.some_bind]
    dsimp only
    have hih := ih bs (pre ++ b) suffix fuel hbs
      (fun x hx => hcond x (List.mem_cons_of_mem a hx))
    rw [show (pre ++ b) ++ (bs ++ suffix) = pre ++ (b ++ (bs ++ suffix)) by simp,
      show (pre ++ b).length = pre.length + b.length by simp] at hih
    rw [hih, Option.map_some']
    dsimp only
    simp only [Option.some.injEq, Prod.mk.injEq, List.length_append]
    exact ⟨by trivial, by omega⟩

theorem byte0_fields :
    ∀ q < 2, ∀ op < 16, ∀ a2 < 2, ∀ t < 2, ∀ r < 2,
      (q * 128 % 256 ||| op * 8 % 256 ||| a2 * 4 % 256 ||| t * 2 % 256 ||| r % 256) / 128 = q ∧
      (q * 128 % 256 ||| op * 8 % 256 ||| a2 * 4 % 256 ||| t * 2 % 256 ||| r % 256) / 8 % 16 = op ∧
      (q * 128 % 256 ||| op * 8 % 256 ||| a2 * 4 % 256 ||| t * 2 % 256 ||| r % 256) / 4 % 2 = a2 ∧
      (q * 128 % 256 ||| op * 8 % 256 ||| a2 * 4 % 256 ||| t * 2 % 256 ||| r % 256) / 2 % 2 = t ∧
      (q * 128 % 256 ||| op * 8 % 256 ||| a2 * 4 % 256 ||| t * 2 % 256 ||| r % 256) % 2 = r := by
  intro q hq op hop a2 ha2 t ht r hr
  interval_cases q <;> interval_cases op <;> interval_cases a2 <;> interval_cases t <;>
    interval_cases r <;> decide

theorem byte1_fields :
    ∀ z2 < 8, ∀ rc < 16,
      (0 * 128 % 256 ||| z2 * 16 % 256 ||| rc % 256) / 128 = 0 ∧
      (0 * 128 % 256 ||| z2 * 16 % 256 ||| rc % 256) / 16 % 16 = z2 ∧
      (0 * 128 % 256 ||| z2 * 16 % 256 ||| rc % 256) % 16 = rc := by
  intro z2 hz2 rc hrc
  interval_cases z2 <;> interval_cases rc <;> decide

theorem mt_toNat_lt (mt : MessageType) : mt.toNat < 2 := by
  cases mt <;> decide

theorem headerParse_encode (hd : Header) (rest : List Nat)
    (hid : hd.id < 65536) (hqd : hd.qdcount < 65536) (han : hd.ancount < 65536)
    (hns : hd.nscount < 65536) (har : hd.arcount < 65536)
    (hop : hd.flags.opcode < 16) (haa : hd.flags.aa < 2) (htc : hd.flags.tc < 2)
    (hrd : hd.flags.rd < 2) (hra : hd.flags.ra = 0) (hz : hd.flags.z < 8)
    (hrc : hd.flags.rcode < 16) :
    headerParse (headerToBytes hd ++ rest) = some hd := by
  obtain ⟨id, flags, qd, an, ns, ar⟩ := hd
  obtain ⟨qr, op, aa, tc, rd, ra, z, rc⟩ := flags
  have hid2 : id < 65536 := hid
  have hqd2 : qd < 65536 := hqd
  have han2 : an < 65536 := han
  have hns2 : ns < 65536 := hns
  have har2 : ar < 65536 := har
  have hop2 : op < 16 := hop
  have haa2 : aa < 2 := haa
  have htc2 : tc < 2 := htc
  have hrd2 : rd < 2 := hrd
  have hra2 : ra = 0 := hra
  have hz2 : z < 8 := hz
  have hrc2 : rc < 16 := hrc
  subst hra2
  have eAll : headerToBytes (Header.mk id (Flags.mk qr op aa tc rd 0 z rc) qd an ns ar) ++ rest
      = (id / 256 % 256) :: (id % 256)
        :: (qr.toNat * 128 % 256 ||| op * 8 % 256 ||| aa * 4 % 256 ||| tc * 2 % 256 ||| rd % 256)
        :: (0 * 128 % 256 ||| z * 16 % 256 ||| rc % 256)
        :: (qd / 256 % 256) :: (qd % 256) :: (an / 256 % 256) :: (an % 256)
        :: (ns / 256 % 256) :: (ns % 256) :: (ar / 256 % 256) :: (ar % 256) :: rest := rfl
  rw [eAll]
  obtain ⟨g1, g2, g3, g4, g5⟩ := byte0_fields qr.toNat (mt_toNat_lt qr) op hop2 aa haa2 tc htc2
    rd hrd2
  obtain ⟨k1, k2, k3⟩ := byte1_fields z hz2 rc hrc2
  unfold headerParse
  dsimp only
  have f0 : byteAt ((id / 256 % 256) :: (id % 256)
      :: (qr.toNat * 128 % 256 ||| op * 8 % 256 ||| aa * 4 % 256 ||| tc * 2 % 256 ||| rd % 256)
      :: (0 * 128 % 256 ||| z * 16 % 256 ||| rc % 256)
      :: (qd / 256 % 256) :: (qd % 256) :: (an / 256 % 256) :: (an % 256)
      :: (ns / 256 % 256) :: (ns % 256) :: (ar / 256 % 256) :: (ar % 256) :: rest) 2
      = qr.toNat * 128 % 256 ||| op * 8 % 256 ||| aa * 4 % 256 ||| tc * 2 % 256 ||| rd % 256 :=
    rfl
  have f1 : byteAt ((id / 256 % 256) :: (id % 256)
      :: (qr.toNat * 128 % 256 ||| op * 8 % 256 ||| aa * 4 % 256 ||| tc * 2 % 256 ||| rd % 256)
      :: (0 * 128 % 256 ||| z * 16 % 256 ||| rc % 256)
      :: (qd / 256 % 256) :: (qd % 256) :: (an / 256 % 256) :: (an % 256)
      :: (ns / 256 % 256) :: (ns % 256) :: (ar / 256 % 256) :: (ar % 256) :: rest) 3
      = 0 * 128 % 256 ||| z * 16 % 256 ||| rc % 256 := rfl
  rw [f0, f1, g1, mtOfCode_toNat, Option.map_some']
  refine congrArg some ?_
  dsimp only
  rw [show byteAt ((id / 256 % 256) :: (id % 256)
      :: (qr.toNat * 128 % 256 ||| op * 8 % 256 ||| aa * 4 % 256 ||| tc * 2 % 256 ||| rd % 256)
      :: (0 * 128 % 256 ||| z * 16 % 256 ||| rc % 256)
      :: (qd / 256 % 256) :: (qd % 256) :: (an / 256 % 256) :: (an % 256)
      :: (ns / 256 % 256) :: (ns % 256) :: (ar / 256 % 256) :: (ar % 256) :: rest) 0
      = id / 256 % 256 from rfl,
    show byteAt ((id / 256 % 256) :: (id % 256)
      :: (qr.toNat * 128 % 256 ||| op * 8 % 256 ||| aa * 4 % 256 ||| tc * 2 % 256 ||| rd % 256)
      :: (0 * 128 % 256 ||| z * 16 % 256 ||| rc % 256)
      :: (qd / 256 % 256) :: (qd % 256) :: (an / 256 % 256) :: (an % 256)
      :: (ns / 256 % 256) :: (ns % 256) :: (ar / 256 % 256) :: (ar % 256) :: rest) 1
      = id % 256 from rfl,
    show byteAt ((id / 256 % 256) :: (id % 256)
      :: (qr.toNat * 128 % 256 ||| op * 8 % 256 ||| aa * 4 % 256 ||| tc * 2 % 256 ||| rd % 256)
      :: (0 * 128 % 256 ||| z * 16 % 256 ||| rc % 256)
      :: (qd / 256 % 256) :: (qd % 256) :: (an / 256 % 256) :: (an % 256)
      :: (ns / 256 % 256) :: (ns % 256) :: (ar / 256 % 256) :: (ar % 256) :: rest) 4
      = qd / 256 % 256 from rfl,
    show byteAt ((id / 256 % 256) :: (id % 256)
      :: (qr.toNat * 128 % 256 ||| op * 8 % 256 ||| aa * 4 % 256 ||| tc * 2 % 256 ||| rd % 256)
      :: (0 * 128 % 256 ||| z * 16 % 256 ||| rc % 256)
      :: (qd / 256 % 256) :: (qd % 256) :: (an / 256 % 256) :: (an % 256)
      :: (ns / 256 % 256) :: (ns % 256) :: (ar / 256 % 256) :: (ar % 256) :: rest) 5
      = qd % 256 from rfl,
    show byteAt ((id / 256 % 256) :: (id % 256)
      :: (qr.toNat * 128 % 256 ||| op * 8 % 256 ||| aa * 4 % 256 ||| tc * 2 % 256 ||| rd % 256)
      :: (0 * 128 % 256 ||| z * 16 % 256 ||| rc % 256)
      :: (qd / 256 % 256) :: (qd % 256) :: (an / 256 % 256) :: (an % 256)
      :: (ns / 256 % 256) :: (ns % 256) :: (ar / 256 % 256) :: (ar % 256) :: rest) 6
      = an / 256 % 256 from rfl,
    show byteAt ((id / 256 % 256) :: (id % 256)
      :: (qr.toNat * 128 % 256 ||| op * 8 % 256 ||| aa * 4 % 256 ||| tc * 2 % 256 ||| rd % 256)
      :: (0 * 128 % 256 ||| z * 16 % 256 ||| rc % 256)
      :: (qd / 256 % 256) :: (qd % 256) :: (an / 256 % 256) :: (an % 256)
      :: (ns / 256 % 256) :: (ns % 256) :: (ar / 256 % 256) :: (ar % 256) :: rest) 7
      = an % 256 from rfl,
    show byteAt ((id / 256 % 256) :: (id % 256)
      :: (qr.toNat * 128 % 256 ||| op * 8 % 256 ||| aa * 4 % 256 ||| tc * 2 % 256 ||| rd % 256)
      :: (0 * 128 % 256 ||| z * 16 % 256 ||| rc % 256)
      :: (qd / 256 % 256) :: (qd % 256) :: (an / 256 % 256) :: (an % 256)
      :: (ns / 256 % 256) :: (ns % 256) :: (ar / 256 % 256) :: (ar % 256) :: rest) 8
      = ns / 256 % 256 from rfl,
    show byteAt ((id / 256 % 256) :: (id % 256)
      :: (qr.toNat * 128 % 256 ||| op * 8 % 256 ||| aa * 4 % 256 ||| tc * 2 % 256 ||| rd % 256)
      :: (0 * 128 % 256 ||| z * 16 % 256 ||| rc % 256)
      :: (qd / 256 % 256) :: (qd % 256) :: (an / 256 % 256) :: (an % 256)
      :: (ns / 256 % 256) :: (ns % 256) :: (ar / 256 % 256) :: (ar % 256) :: rest) 9
      = ns % 256 from rfl,
    show byteAt ((id / 256 % 256) :: (id % 256)
      :: (qr.toNat * 128 % 256 ||| op * 8 % 256 ||| aa * 4 % 256 ||| tc * 2 % 256 ||| rd % 256)
      :: (0 * 128 % 256 ||| z * 16 % 256 ||| rc % 256)
      :: (qd / 256 % 256) :: (qd % 256) :: (an / 256 % 256) :: (an % 256)
      :: (ns / 256 % 256) :: (ns % 256) :: (ar / 256 % 256) :: (ar % 256) :: rest) 10
      = ar / 256 % 256 from rfl,
    show byteAt ((id / 256 % 256) :: (id % 256)
      :: (qr.toNat * 128 % 256 ||| op * 8 % 256 ||| aa * 4 % 256 ||| tc * 2 % 256 ||| rd % 256)
      :: (0 * 128 % 256 ||| z * 16 % 256 ||| rc % 256)
      :: (qd / 256 % 256) :: (qd % 256) :: (an / 256 % 256) :: (an % 256)
      :: (ns / 256 % 256) :: (ns % 256) :: (ar / 256 % 256) :: (ar % 256) :: rest) 11
      = ar % 256 from rfl]
  rw [g2, g3, g4, g5, k1, k2, k3,
    show id / 256 % 256 * 256 + id % 256 = id by omega,
    show qd / 256 % 256 * 256 + qd % 256 = qd by omega,
    show an / 256 % 256 * 256 + an % 256 = an by omega,
    show ns / 256 % 256 * 256 + ns % 256 = ns by omega,
    show ar / 256 % 256 * 256 + ar % 256 = ar by omega]

theorem headerToBytes_length (hd : Header) : (headerToBytes hd).length = 12 := rfl

theorem parseList_zero {α : Type} (p : Nat → Option (α × Nat)) (pos : Nat) :
    parseList p 0 pos = some ([], pos) := rfl

theorem questionToBytes_isSome (q : Question)
    (hl : ∀ l ∈ q.name.name.splitOn 46, l.length ≤ 63) :
    ∃ b, questionToBytes q = some b := by
  unfold questionToBytes nameToBytes
  dsimp only
  rw [if_pos (by
    rw [List.all_eq_true]
    intro l hli
    have := hl l hli
    simp only [decide_eq_true_eq]
    omega)]
  exact ⟨_, rfl⟩

theorem answerToBytes_isSome (a : Answer)
    (hl : ∀ l ∈ a.name.name.splitOn 46, l.length ≤ 63) :
    ∃ b, answerToBytes a = some b := by
  unfold answerToBytes nameToBytes
  dsimp only
  rw [if_pos (by
    rw [List.all_eq_true]
    intro l hli
    have := hl l hli
    simp only [decide_eq_true_eq]
    omega)]
  exact ⟨_, rfl⟩

theorem toBytesListQ_isSome : ∀ (qs : List Question),
    (∀ q ∈ qs, ∀ l ∈ q.name.name.splitOn 46, l.length ≤ 63) →
    ∃ qb, toBytesList questionToBytes qs = some qb := by
  intro qs
  induction qs with
  | nil => intro _; exact ⟨[], rfl⟩
  | cons q qs ih =>
    intro h
    obtain ⟨b, hb⟩ := questionToBytes_isSome q (h q (List.mem_cons_self q qs))
    obtain ⟨bs, hbs⟩ := ih (fun x hx => h x (List.mem_cons_of_mem q hx))
    exact ⟨b ++ bs, by rw [toBytesList, hb, Option.some_bind, hbs, Option.map_some']⟩

theorem toBytesListA_isSome : ∀ (xs : List Answer),
    (∀ a ∈ xs, ∀ l ∈ a.name.name.splitOn 46, l.length ≤ 63) →
    ∃ ab, toBytesList answerToBytes xs = some ab := by
  intro xs
  induction xs with
  | nil => intro _; exact ⟨[], rfl⟩
  | cons a xs ih =>
    intro h
    obtain ⟨b, hb⟩ := answerToBytes_isSome a (h a (List.mem_cons_self a xs))
    obtain ⟨bs, hbs⟩ := ih (fun x hx => h x (List.mem_cons_of_mem a hx))
    exact ⟨b ++ bs, by rw [toBytesList, hb, Option.some_bind, hbs, Option.map_some']⟩

/-- C1, amended: `parse (to_bytes m) = m` holds only under these conditions,
each forced by the source: the authority and additional sections are empty
(`to_bytes` never writes them), the header counts equal the section lengths
(`to_bytes` writes the stored counts verbatim), `flags.ra = 0` (parsing folds
the `ra` bit into `z`), every answer's rdata is exactly 4 bytes
(`Answer::parse` always reads 4 rdata bytes, ignoring `rdlength`), labels are
1..63 bytes, and the numeric fields are within their wire widths. `fuel`
bounds the label count per name in the fuel-indexed model of the source's
unbounded parsing loop. -/
theorem c1_round_trip_amended (m : Message) (fuel : Nat)
    (hnsE : m.name_servers = []) (hadE : m.additional = [])
    (hqdC : m.header.qdcount = m.questions.length)
    (hanC : m.header.ancount = m.answers.length)
    (hnsC : m.header.nscount = 0) (harC : m.header.arcount = 0)
    (hid : m.header.id < 65536) (hqlt : m.questions.length < 65536)
    (halt : m.answers.length < 65536)
    (hop : m.header.flags.opcode < 16) (haa : m.header.flags.aa < 2)
    (htc : m.header.flags.tc < 2) (hrd : m.header.flags.rd < 2)
    (hra : m.header.flags.ra = 0) (hz : m.header.flags.z < 8)
    (hrc : m.header.flags.rcode < 16)
    (hq : ∀ q ∈ m.questions, (∀ l ∈ q.name.name.splitOn 46, 0 < l.length ∧ l.length ≤ 63) ∧
      (q.name.name.splitOn 46).length < fuel)
    (ha : ∀ a ∈ m.answers, (∀ l ∈ a.name.name.splitOn 46, 0 < l.length ∧ l.length ≤ 63) ∧
      (a.name.name.splitOn 46).length < fuel ∧ a.ttl < 4294967296 ∧
      a.rdlength < 65536 ∧ a.rdata.length = 4) :
    (msgToBytes m).bind (fun bs => messageParse bs fuel) = some m := by
  obtain ⟨hd, qs, ans, nss, ads⟩ := m
  have hns2 : nss = [] := hnsE
  have had2 : ads = [] := hadE
  subst hns2
  subst had2
  have hqd2 : hd.qdcount = qs.length := hqdC
  have han2 : hd.ancount = ans.length := hanC
  have hns02 : hd.nscount = 0 := hnsC
  have har02 : hd.arcount = 0 := harC
  have hid2 : hd.id < 65536 := hid
  have hqlt2 : qs.length < 65536 := hqlt
  have halt2 : ans.length < 65536 := halt
  have hq2 : ∀ q ∈ qs, (∀ l ∈ q.name.name.splitOn 46, 0 < l.length ∧ l.length ≤ 63) ∧
      (q.name.name.splitOn 46).length < fuel := hq
  have ha2 : ∀ a ∈ ans, (∀ l ∈ a.name.name.splitOn 46, 0 < l.length ∧ l.length ≤ 63) ∧
      (a.name.name.splitOn 46).length < fuel ∧ a.ttl < 4294967296 ∧
      a.rdlength < 65536 ∧ a.rdata.length = 4 := ha
  obtain ⟨qb, hqb⟩ := toBytesListQ_isSome qs (fun x hx l hl => ((hq2 x hx).1 l hl).2)
  obtain ⟨ab, hab⟩ := toBytesListA_isSome ans (fun x hx l hl => ((ha2 x hx).1 l hl).2)
  unfold msgToBytes
  rw [hqb, Option.some_bind, hab, Option.map_some', Option.some_bind]
  simp only [List.append_assoc]
  unfold messageParse
  rw [if_neg (by
    simp only [List.length_append, headerToBytes_length]
    omega)]
  rw [headerParse_encode hd (qb ++ ab) hid2 (by omega) (by omega) (by omega) (by omega)
    hop haa htc hrd hra hz hrc, Option.some_bind]
  rw [hqd2, show (12 : Nat) = (headerToBytes hd).length from rfl,
    parseListQ_encode qs qb (headerToBytes hd) ab fuel hqb hq2, Option.some_bind]
  rw [han2]
  have hA := parseListA_encode ans ab (headerToBytes hd ++ qb) [] fuel hab ha2
  rw [show (headerToBytes hd ++ qb) ++ (ab ++ []) = headerToBytes hd ++ (qb ++ ab) by simp,
    show (headerToBytes hd ++ qb).length = (headerToBytes hd).length + qb.length by simp] at hA
  rw [hA, Option.some_bind]
  rw [hns02, har02, parseList_zero, Option.some_bind, parseList_zero, Option.map_some']

/-- A well-formed one-question, one-answer message (labels in range, counts
matching the sections, 4-byte rdata, `ra = 0`). -/
def cC1msg : Message :=
  ⟨⟨7, ⟨.Query, 0, 0, 0, 1, 0, 0, 0⟩, 1, 1, 0, 0⟩,
    [⟨⟨[97, 98]⟩, .A, .IN⟩],
    [⟨⟨[99, 100]⟩, .A, .IN, 60, 4, [8, 8, 8, 8]⟩], [], []⟩

/-- C1, witness: the amended round trip evaluated on `cC1msg`. -/
theorem c1_witness :
    (msgToBytes cC1msg).bind (fun bs => messageParse bs 10) = some cC1msg :=
  c1_round_trip_amended cC1msg 10 rfl rfl rfl rfl rfl rfl (by decide) (by decide) (by decide)
    (by decide) (by decide) (by decide) (by decide) rfl (by decide) (by decide)
    (by decide) (by decide)

/-- A message within the claim's stated bounds (labels at most 63 bytes, all
numeric codes in range) whose single answer carries 8 bytes of rdata. -/
def cC1bad : Message :=
  ⟨⟨7, ⟨.Query, 0, 0, 0, 1, 0, 0, 0⟩, 0, 1, 0, 0⟩, [],
    [⟨⟨[99, 100]⟩, .A, .IN, 60, 8, [1, 2, 3, 4, 5, 6, 7, 8]⟩], [], []⟩

/-- C1, counterexample: re-parsing the serialisation of `cC1bad` yields a
different message — `Answer::parse` reads only 4 of the 8 rdata bytes — so
`parse (to_bytes m) = m` fails inside the claim's stated hypotheses. -/
theorem c1_counterexample :
    (msgToBytes cC1bad).bind (fun bs => messageParse bs 10)
      = some { cC1bad with answers := [⟨⟨[99, 100]⟩, .A, .IN, 60, 8, [1, 2, 3, 4]⟩] } ∧
    (msgToBytes cC1bad).bind (fun bs => messageParse bs 10) ≠ some cC1bad := by
  decide
